import Mathlib

/-!
Verification of the bedrock-workspace CLI's reconciliation logic.

The development shallowly embeds the repository's JavaScript sources:

* `updateWorkspace` / `reinitializeWorkspace` (src/src/updateWorkspace.js):
  the update protocol is a pure function from the run's inputs (prompt
  answers, VCS snapshot) to an outcome together with the ordered trace of
  capability calls it performs.  Read-only calls (`status`, `revparse`,
  `log`) are not traced; `fetch` is traced but is not a mutating call.
* the cleaner (src/unnamed/part_002, `cleanWorkspace`, `cleanPatternItem`,
  `getDirectorySize`, `getFileSize`, `getBuildOutputSize`,
  `getTempFilesSize`): the filesystem is a finite tree, fallible calls
  (`statSync`, `readdirSync`, `fs.remove`) are driven by error predicates
  of the environment, and removal attempts are traced.  Within one clean
  invocation no path is ever measured after something below it has been
  removed (the catalog is computed up front, and during removal each
  scripts/dist directory is measured at most once, immediately before its
  own removal), so the tree can be threaded unchanged through the run.
* the status reporter's built flag (src/unnamed/part_004,
  `showProjectsStatus`): `readdirSync(dir, {recursive:true})` is the full
  recursive listing of a tree, directories included, as Node returns it.
* `getDirectorySize` again over a graph-shaped filesystem (symbolic links
  make cycles possible), with explicit fuel, to settle termination.
-/

/-! ### VCS update model (src/src/updateWorkspace.js) -/

/-- Answer to the dirty-workspace prompt of `updateWorkspace`. -/
inductive DirtyChoice where
  | stash
  | discard
  | cancel
deriving DecidableEq, Repr

/-- Traced capability calls of the update path.  `resetHard` is
`git.reset('hard')`, `cleanForce` is `git.clean('f', ['-d'])`. -/
inductive GitOp where
  | stash
  | resetHard
  | cleanForce
  | fetch
  | pull
  | npmInstall
deriving DecidableEq, Repr

/-- Calls that mutate the VCS state (the claim's stash/reset/clean/pull).
`fetch` only updates remote-tracking data and `npmInstall` is not a VCS
call. -/
def GitOp.isMutating : GitOp → Bool
  | .stash => true
  | .resetHard => true
  | .cleanForce => true
  | .pull => true
  | .fetch => false
  | .npmInstall => false

/-- Inputs of one `updateWorkspace` run: the filesystem/VCS snapshot the
code reads and the operator's prompt answers.  Commits are abstracted to
`Nat` identifiers. -/
structure UpdateIn where
  workspaceExists : Bool
  gitTracked : Bool
  statusClean : Bool
  dirtyChoice : DirtyChoice
  reinitConfirm : Bool
  localCommit : Nat
  remoteCommit : Nat
  confirmUpdate : Bool
  packageJsonExists : Bool
  updateDependencies : Bool
deriving DecidableEq, Repr

/-- Terminal outcome of one `updateWorkspace` run. -/
inductive UpdateOutcome where
  | noWorkspace
  | notTracked (reinitialized : Bool)
  | cancelledDirty
  | upToDate
  | declined
  | updated
deriving DecidableEq, Repr

/-- Ops performed by the dirty-state resolution branch of
`updateWorkspace` (lines 77-87); `none` is the early return of `cancel`. -/
def dirtyResolutionOps : DirtyChoice → Option (List GitOp)
  | .cancel => none
  | .stash => some [.stash]
  | .discard => some [.resetHard, .cleanForce]

/-- The update protocol of `updateWorkspace` (src/src/updateWorkspace.js
lines 7-179) as outcome plus ordered trace of traced calls. -/
def updateWorkspace (i : UpdateIn) : UpdateOutcome × List GitOp :=
  if i.workspaceExists = false then (.noWorkspace, [])
  else if i.gitTracked = false then (.notTracked i.reinitConfirm, [])
  else
    match (if i.statusClean then some [] else dirtyResolutionOps i.dirtyChoice) with
    | none => (.cancelledDirty, [])
    | some ops0 =>
      let ops1 := ops0 ++ [GitOp.fetch]
      if i.localCommit = i.remoteCommit then (.upToDate, ops1)
      else if i.confirmUpdate = false then (.declined, ops1)
      else
        let ops2 := ops1 ++ [GitOp.pull]
        (.updated,
          if i.packageJsonExists && i.updateDependencies then ops2 ++ [GitOp.npmInstall]
          else ops2)

/-- Observable workspace state the traced calls act on. -/
structure WSState where
  head : Nat
  stashCount : Nat
  modifiedCount : Nat
  untrackedCount : Nat
deriving DecidableEq, Repr

/-- Effect of one traced call: `stash` suspends tracked modifications,
`reset --hard` reverts tracked modifications, `clean -f -d` deletes
untracked entries, `pull` moves HEAD to the remote commit. -/
def GitOp.applyTo (remote : Nat) (s : WSState) : GitOp → WSState
  | .stash => { s with stashCount := s.stashCount + 1, modifiedCount := 0 }
  | .resetHard => { s with modifiedCount := 0 }
  | .cleanForce => { s with untrackedCount := 0 }
  | .fetch => s
  | .pull => { s with head := remote }
  | .npmInstall => s

/-- Run a trace of calls over a workspace state. -/
def runGitOps (remote : Nat) (s : WSState) (ops : List GitOp) : WSState :=
  ops.foldl (GitOp.applyTo remote) s

/-! ### Reinitialization of a workspace without VCS metadata
(src/src/updateWorkspace.js lines 181-203) -/

/-- Filesystem operations of `reinitializeWorkspace`, in order of
invocation. -/
inductive FSOp where
  | copyTree (src dst : String)
  | removeTree (p : String)
  | initWorkspace
deriving DecidableEq, Repr

/-- Backup destination: a timestamped sibling of the workspace root. -/
def backupPath (workspaceDir : String) (timestamp : Nat) : String :=
  workspaceDir ++ "_backup_" ++ toString timestamp

/-- Trace of `reinitializeWorkspace`: copy the root to the backup path,
then remove the root, then run the initializer.  When the copy fails the
exception propagates and the remaining steps never run. -/
def reinitializeWorkspace (workspaceDir : String) (timestamp : Nat)
    (copyFails : Bool) : List FSOp × Except String Unit :=
  let backupDir := backupPath workspaceDir timestamp
  if copyFails then ([FSOp.copyTree workspaceDir backupDir], .error "copy failed")
  else
    ([FSOp.copyTree workspaceDir backupDir, FSOp.removeTree workspaceDir,
      FSOp.initWorkspace], .ok ())

/-! ### Filesystem tree model (shared by the cleaner and the status
reporter).  Paths are component lists relative to the workspace root. -/

/-- A path, as its list of components below the workspace root. -/
abbrev FsPath := List String

mutual
/-- A filesystem entry: a file with its byte length, or a directory. -/
inductive FSTree where
  | file (size : Nat)
  | dir (children : FSList)
deriving DecidableEq, Repr
/-- Named children of a directory, in listing order. -/
inductive FSList where
  | nil
  | cons (name : String) (t : FSTree) (rest : FSList)
deriving DecidableEq, Repr
end

/-- Child of a directory by name. -/
def FSList.find? : FSList → String → Option FSTree
  | .nil, _ => none
  | .cons n t rest, name => if n = name then some t else rest.find? name

/-- Resolve a path below an entry. -/
def FSTree.lookup : FSTree → FsPath → Option FSTree
  | t, [] => some t
  | .file _, _ :: _ => none
  | .dir cs, n :: rest =>
    match cs.find? n with
    | none => none
    | some t => t.lookup rest

/-- The code's `fs.existsSync`. -/
def existsPath (fs : FSTree) (p : FsPath) : Bool :=
  (fs.lookup p).isSome

/-- Children as a plain list. -/
def FSList.toList : FSList → List (String × FSTree)
  | .nil => []
  | .cons n t rest => (n, t) :: rest.toList

/-- Suffix test on strings by their character lists (the code's
`String.prototype.endsWith`). -/
def strEndsWith (s suffix : String) : Bool :=
  suffix.data.isSuffixOf s.data

/-- Which filesystem calls fail: `statErr p` makes `statSync(p)` throw,
`readErr p` makes `readdirSync(p)` throw on a directory. -/
structure FsErr where
  statErr : FsPath → Bool
  readErr : FsPath → Bool

/-- The error-free environment. -/
def noFsErr : FsErr := ⟨fun _ => false, fun _ => false⟩

mutual
/-- What the child loop of `getDirectorySize` adds for one child entry at
path `p` (src/unnamed/part_002 lines 203-212, identically
src/unnamed/part_004 lines 337-346): a file contributes `stats.size`; a
directory contributes its own guarded recursive `getDirectorySize` — 0
when its `readdirSync` throws or when its own child loop throws, the
defined child sum otherwise. -/
def FSTree.subSize (e : FsErr) (p : FsPath) : FSTree → Nat
  | .file sz => sz
  | .dir cs =>
    if e.readErr p then 0
    else
      match FSList.childSum e p cs with
      | some s => s
      | none => 0
/-- Child loop of `getDirectorySize`: `statSync` each child; a throw
aborts the loop and discards the partial sum (`none`). -/
def FSList.childSum (e : FsErr) (p : FsPath) : FSList → Option Nat
  | .nil => some 0
  | .cons n t rest =>
    if e.statErr (p ++ [n]) then none
    else
      match FSList.childSum e p rest with
      | none => none
      | some s => some (FSTree.subSize e (p ++ [n]) t + s)
end

/-- The code's `getDirectorySize(dirPath)` (src/unnamed/part_002 lines
196-218 and the identical copy in src/unnamed/part_004 lines 330-352): 0
for a missing path; 0 for a file (its `readdirSync` throws and the catch
returns 0); on a directory the guarded recursive sum, which for a
directory entry is exactly `FSTree.subSize`. -/
def getDirectorySize (e : FsErr) (fs : FSTree) (p : FsPath) : Nat :=
  match fs.lookup p with
  | none => 0
  | some (.file _) => 0
  | some (.dir cs) => FSTree.subSize e p (.dir cs)

mutual
/-- Sum of all file byte lengths in an entry (the size the tree really
holds; specification-side reference for `getDirectorySize`). -/
def FSTree.totalBytes : FSTree → Nat
  | .file sz => sz
  | .dir cs => cs.totalBytes
/-- Sum of all file byte lengths below a child list. -/
def FSList.totalBytes : FSList → Nat
  | .nil => 0
  | .cons _ t rest => t.totalBytes + rest.totalBytes
end

/-! ### Selective cleaner model (src/unnamed/part_002) -/

/-- Environment of one `cleanWorkspace` run.  `removeFails p` makes
`fs.remove(workspace/p)` throw; `dirStatSize` is what `statSync(..).size`
reports when the stat target is a directory (platform-dependent, only
reachable through `getFileSize`). -/
structure CleanEnv where
  workspaceExists : Bool
  fs : FSTree
  err : FsErr
  removeFails : FsPath → Bool
  dirStatSize : Nat

/-- The code's `getFileSize(filePath)` (part_002 lines 220-229): 0 for a
missing path, `statSync(filePath).size` otherwise, 0 when the stat
throws. -/
def getFileSize (env : CleanEnv) (p : FsPath) : Nat :=
  match env.fs.lookup p with
  | none => 0
  | some t =>
    if env.err.statErr p then 0
    else
      match t with
      | .file sz => sz
      | .dir _ => env.dirStatSize

/-- Compiled-scripts directory of a project, relative to the workspace
root. -/
def scriptsPath (project : String) : FsPath :=
  ["projects", project, "behavior_pack", "scripts"]

/-- Distribution directory of a project, relative to the workspace root. -/
def distPath (project : String) : FsPath :=
  ["projects", project, "dist"]

/-- The `readdirSync(projectsDir).filter(p => statSync(..).isDirectory())`
step: stats every entry in order and keeps the directory names; a throw
(`none`) aborts the whole filter. -/
def dirEntriesFilter (statErr : FsPath → Bool) (base : FsPath) :
    List (String × FSTree) → Option (List String)
  | [] => some []
  | (n, t) :: rest =>
    if statErr (base ++ [n]) then none
    else
      match dirEntriesFilter statErr base rest with
      | none => none
      | some ns =>
        match t with
        | .dir _ => some (n :: ns)
        | .file _ => some ns

/-- The code's `getBuildOutputSize(workspaceDir)` (part_002 lines
231-253): sum, over the directory entries of `projects`, of the sizes of
each project's scripts and dist directories; any throw is caught with the
sum still 0 (the only throw points precede the loop). -/
def getBuildOutputSize (env : CleanEnv) : Nat :=
  match env.fs.lookup ["projects"] with
  | none => 0
  | some (.file _) => 0
  | some (.dir cs) =>
    if env.err.readErr ["projects"] then 0
    else
      match dirEntriesFilter env.err.statErr ["projects"] cs.toList with
      | none => 0
      | some names =>
        (names.map (fun n =>
          getDirectorySize env.err env.fs (scriptsPath n)
          + getDirectorySize env.err env.fs (distPath n))).sum

/-- The code's `getTempFilesSize(workspaceDir)` (part_002 lines 255-259):
the constant 0. -/
def getTempFilesSize (_env : CleanEnv) : Nat := 0

/-- One candidate subpath inside the Build outputs loop: skipped when it
does not exist, else measured, then removed; a failing remove throws with
the measured bytes never added.  Result: attempted removals, and the
reclaimed bytes or the thrown error. -/
def cleanSubpath (env : CleanEnv) (p : FsPath) : List FsPath × Except Unit Nat :=
  if existsPath env.fs p then
    if env.removeFails p then ([p], .error ())
    else ([p], .ok (getDirectorySize env.err env.fs p))
  else ([], .ok 0)

/-- Per-project loop of the Build outputs branch of `cleanPatternItem`
(part_002 lines 161-175): scripts directory then dist directory of each
project in order; an uncaught throw aborts the rest of the loop. -/
def buildCleanLoop (env : CleanEnv) : List String → List FsPath × Except Unit Nat
  | [] => ([], .ok 0)
  | n :: rest =>
    match cleanSubpath env (scriptsPath n) with
    | (a1, .error e) => (a1, .error e)
    | (a1, .ok s1) =>
      match cleanSubpath env (distPath n) with
      | (a2, .error e) => (a1 ++ a2, .error e)
      | (a2, .ok s2) =>
        match buildCleanLoop env rest with
        | (a3, res) =>
          (a1 ++ a2 ++ a3,
            match res with
            | .error e => .error e
            | .ok s3 => .ok (s1 + s2 + s3))

/-- The Build outputs branch of `cleanPatternItem` (part_002 lines
154-177).  `cleanPatternItem` itself catches nothing, so a throw from
`readdirSync`, the `statSync` filter or `fs.remove` propagates to the
caller with the loop abandoned. -/
def cleanPatternBuild (env : CleanEnv) : List FsPath × Except Unit Nat :=
  match env.fs.lookup ["projects"] with
  | none => ([], .ok 0)
  | some (.file _) => ([], .error ())
  | some (.dir cs) =>
    if env.err.readErr ["projects"] then ([], .error ())
    else
      match dirEntriesFilter env.err.statErr ["projects"] cs.toList with
      | none => ([], .error ())
      | some names => buildCleanLoop env names

/-- The code's `cleanPatternItem(item, workspaceDir)` (part_002 lines
151-194), dispatching on the item name: the Build outputs branch removes
per-project subpaths; the Temporary files branch only prints and returns
the untouched 0 accumulator; any other name falls through to `return 0`. -/
def cleanPatternItem (env : CleanEnv) (name : String) : List FsPath × Except Unit Nat :=
  if name = "Build outputs" then cleanPatternBuild env
  else ([], .ok 0)

/-- One catalog entry of the cleaner. -/
structure CleanItem where
  name : String
  path : FsPath
  isPattern : Bool
  size : Nat
deriving DecidableEq, Repr

/-- The catalog of `cleanWorkspace` (part_002 lines 21-54), sizes computed
up front. -/
def cleanableItems (env : CleanEnv) : List CleanItem :=
  [ { name := "Node modules", path := ["node_modules"], isPattern := false,
      size := getDirectorySize env.err env.fs ["node_modules"] },
    { name := "Package lock file", path := ["package-lock.json"], isPattern := false,
      size := getFileSize env ["package-lock.json"] },
    { name := "Build outputs", path := ["projects"], isPattern := true,
      size := getBuildOutputSize env },
    { name := "Temporary files", path := [], isPattern := true,
      size := getTempFilesSize env },
    { name := "VS Code settings", path := [".vscode"], isPattern := false,
      size := getDirectorySize env.err env.fs [".vscode"] } ]

/-- The `existingItems` filter (part_002 lines 57-60): a pattern item is
kept when its computed size is positive, a direct item when its path
exists. -/
def existingItems (env : CleanEnv) : List CleanItem :=
  (cleanableItems env).filter (fun it =>
    if it.isPattern then decide (0 < it.size) else existsPath env.fs it.path)

/-- Result of one `cleanWorkspace` run: reported reclaimed bytes, count of
categories cleaned, attempted `fs.remove` calls in order, and whether the
run reached the final report (as opposed to an early return). -/
structure CleanResult where
  bytes : Nat
  itemsCleaned : Nat
  attempts : List FsPath
  finished : Bool
deriving DecidableEq, Repr

/-- Body of the `for (const itemName of itemsToClean)` loop of
`cleanWorkspace` (part_002 lines 118-136) for one selected name: look the
name up in the surviving catalog (`continue` on a miss), then clean the
item inside the loop's try/catch — a pattern item through
`cleanPatternItem`, a direct item by removing its path and crediting its
pre-computed size; a throw is caught with nothing credited.  Result:
(bytes credited, categories cleaned, removal attempts). -/
def cleanStep (env : CleanEnv) (existing : List CleanItem) (name : String) :
    Nat × Nat × List FsPath :=
  match existing.find? (fun it => it.name == name) with
  | none => (0, 0, [])
  | some it =>
    if it.isPattern then
      match cleanPatternItem env it.name with
      | (a, .ok n) => (n, 1, a)
      | (a, .error _) => (0, 0, a)
    else
      if env.removeFails it.path then (0, 0, [it.path])
      else (it.size, 1, [it.path])

/-- The cleaning loop itself, accumulating over the selected names in
order. -/
def cleanLoop (env : CleanEnv) (existing : List CleanItem) :
    List String → Nat × Nat × List FsPath
  | [] => (0, 0, [])
  | name :: rest =>
    let step := cleanStep env existing name
    let next := cleanLoop env existing rest
    (step.1 + next.1, step.2.1 + next.2.1, step.2.2 ++ next.2.2)

/-- The code's `cleanWorkspace()` (part_002 lines 6-149) with the prompt
answers as inputs: early returns report nothing and remove nothing; a
confirmed, non-empty selection runs the cleaning loop. -/
def cleanWorkspace (env : CleanEnv) (sel : List String) (confirmClean : Bool) :
    CleanResult :=
  if env.workspaceExists = false then ⟨0, 0, [], false⟩
  else if (existingItems env).isEmpty then ⟨0, 0, [], false⟩
  else if sel.isEmpty then ⟨0, 0, [], false⟩
  else if confirmClean = false then ⟨0, 0, [], false⟩
  else
    let r := cleanLoop env (existingItems env) sel
    ⟨r.1, r.2.1, r.2.2, true⟩

/-- Pre-computed catalog size a selected name stands for: the size field
of the surviving catalog entry of that name, 0 for a name the catalog
does not offer. -/
def catalogSizeOf (env : CleanEnv) (name : String) : Nat :=
  match (existingItems env).find? (fun it => it.name == name) with
  | none => 0
  | some it => it.size

/-- Sum of the pre-computed catalog sizes of a selection. -/
def selectedCatalogTotal (env : CleanEnv) (sel : List String) : Nat :=
  (sel.map (catalogSizeOf env)).sum

/-- Removal attempts one selected name produces on its own, independent of
the other selections. -/
def itemAttempts (env : CleanEnv) (existing : List CleanItem) (name : String) :
    List FsPath :=
  match existing.find? (fun it => it.name == name) with
  | none => []
  | some it =>
    if it.isPattern then (cleanPatternItem env it.name).1
    else [it.path]

/-- Specification-side removal plan of the Build outputs category: the
existing scripts and dist directories of the listed projects, in loop
order. -/
def removalPlan (env : CleanEnv) (names : List String) : List FsPath :=
  names.flatMap (fun n =>
    (if existsPath env.fs (scriptsPath n) then [scriptsPath n] else [])
    ++ (if existsPath env.fs (distPath n) then [distPath n] else []))

/-- Specification-side best-effort run of a removal plan that stops at the
first failing removal, that removal included. -/
def runPlan (fails : FsPath → Bool) : List FsPath → List FsPath
  | [] => []
  | p :: ps => if fails p then [p] else p :: runPlan fails ps

/-! ### Built flag of the status reporter (src/unnamed/part_004,
`showProjectsStatus` lines 199-213) -/

mutual
/-- Recursive listing of an entry as `readdirSync(p, {recursive:true})`
returns it: the relative path of every entry below `p`, directories
included, each as its component list. -/
def FSTree.readdirRec : FSTree → List FsPath
  | .file _ => []
  | .dir cs => cs.readdirRec
/-- Recursive listing below a child list. -/
def FSList.readdirRec : FSList → List FsPath
  | .nil => []
  | .cons n t rest =>
    [n] :: (t.readdirRec.map (fun e => n :: e)) ++ rest.readdirRec
end

/-- Does a listed relative path end in `.js`?  Node compares on the joined
path string; the separator never occurs in `.js`, so the test holds
exactly when the last component ends in `.js`. -/
def entryIsJsNamed (e : FsPath) : Bool :=
  strEndsWith (e.getLastD "") ".js"

/-- The reporter's built flag for one project directory tree: the code
(part_004 lines 207-213) keeps it false unless the behavior-pack scripts
path exists, and sets it when the recursive listing of that directory has
an entry ending in `.js`.  `none` is the run where the scripts path is a
file and `readdirSync` throws out of `showProjectsStatus`. -/
def isBuilt (proj : FSTree) : Option Bool :=
  match proj.lookup ["behavior_pack", "scripts"] with
  | none => some false
  | some (.file _) => none
  | some (.dir cs) => some (cs.readdirRec.any entryIsJsNamed)

/-- Is this named entry itself a file whose name ends in `.js`? -/
def isJsFileEntry (n : String) : FSTree → Bool
  | .file _ => strEndsWith n ".js"
  | .dir _ => false

mutual
/-- Specification-side predicate: the tree holds, anywhere below it, a
file (a leaf) whose name ends in `.js`. -/
def FSTree.hasJsFile : FSTree → Bool
  | .file _ => false
  | .dir cs => cs.hasJsFile
/-- Child-list case of `FSTree.hasJsFile`. -/
def FSList.hasJsFile : FSList → Bool
  | .nil => false
  | .cons n t rest => isJsFileEntry n t || t.hasJsFile || rest.hasJsFile
end

mutual
/-- Specification-side predicate: the tree holds, anywhere below it, an
entry of either kind whose name ends in `.js`. -/
def FSTree.hasJsEntry : FSTree → Bool
  | .file _ => false
  | .dir cs => cs.hasJsEntry
/-- Child-list case of `FSTree.hasJsEntry`. -/
def FSList.hasJsEntry : FSList → Bool
  | .nil => false
  | .cons n t rest => strEndsWith n ".js" || t.hasJsEntry || rest.hasJsEntry
end

/-! ### Directory size over a filesystem with symbolic links
(src/unnamed/part_004 lines 330-352, identically part_002 lines 196-218).
Following a symbolic link is resolution: what `statSync` and `readdirSync`
see at a path.  A graph filesystem maps every path to the entry resolution
yields there, so a link cycle is a path whose resolved directory keeps
listing a child resolving to a directory again, without end.  The code of
`getDirectorySize` keeps no record of visited directories, so its
recursion is given explicit fuel; `none` means the fuel ran out before the
call returned. -/

/-- What resolving a path yields on a graph filesystem. -/
inductive GNode where
  | gfile (size : Nat)
  | gdir (entries : List String)
deriving DecidableEq, Repr

/-- A graph filesystem: the entry resolution yields at every path.  Total
resolution suffices here: the claim's hazardous inputs are link cycles,
where every path on the cycle keeps resolving. -/
def GraphFS := FsPath → GNode

mutual
/-- The code's `getDirectorySize` over a graph filesystem, fuel-bounded:
each recursive call spends one unit.  The error-free run is modelled (no
`statSync`/`readdirSync` failures), matching the claim's inputs.  `none`
means the fuel was exhausted before the call returned. -/
def getDirectorySizeG (fsys : GraphFS) : Nat → FsPath → Option Nat
  | 0, _ => none
  | fuel + 1, p =>
    match fsys p with
    | .gfile _ => some 0
    | .gdir entries => childSumG fsys fuel p entries
/-- Child loop of `getDirectorySizeG`: stat each entry, recurse into
directories with the remaining fuel. -/
def childSumG (fsys : GraphFS) (fuel : Nat) (p : FsPath) : List String → Option Nat
  | [] => some 0
  | n :: rest =>
    match fsys (p ++ [n]) with
    | .gfile sz =>
      match childSumG fsys fuel p rest with
      | none => none
      | some s => some (sz + s)
    | .gdir _ =>
      match getDirectorySizeG fsys fuel (p ++ [n]) with
      | none => none
      | some s =>
        match childSumG fsys fuel p rest with
        | none => none
        | some s2 => some (s + s2)
end

/-- A symbolic-link cycle: every path resolves to a directory whose single
entry `loop` resolves to the same directory again — the view `statSync`
and `readdirSync` give of a directory containing a link back to itself. -/
def cyclicFS : GraphFS := fun _ => .gdir ["loop"]

/-! ### Claims about the update path -/

/-- C4: reinitializing a NotTracked workspace copies the root to the
timestamped sibling backup first and deletes the root only after the copy
succeeded; when the copy fails the root is never deleted. -/
theorem reinitializeWorkspace_backup_precedes_delete
    (dir : String) (ts : Nat) (copyFails : Bool) :
    (reinitializeWorkspace dir ts copyFails).1
      = (if copyFails then [FSOp.copyTree dir (backupPath dir ts)]
         else [FSOp.copyTree dir (backupPath dir ts), FSOp.removeTree dir,
               FSOp.initWorkspace])
    ∧ (FSOp.removeTree dir ∈ (reinitializeWorkspace dir ts copyFails).1
        ↔ copyFails = false) := by
  cases copyFails <;> simp [reinitializeWorkspace]

/-- C7: on a dirty tracked workspace, choosing `cancel` at the dirty-state
prompt ends the run at once: no call of any kind is performed after the
choice and any workspace state is left exactly as it was. -/
theorem updateWorkspace_cancel_no_mutation (i : UpdateIn)
    (hw : i.workspaceExists = true) (ht : i.gitTracked = true)
    (hd : i.statusClean = false) (hc : i.dirtyChoice = .cancel) :
    (updateWorkspace i).1 = .cancelledDirty ∧ (updateWorkspace i).2 = []
    ∧ ∀ s : WSState, runGitOps i.remoteCommit s (updateWorkspace i).2 = s := by
  simp [updateWorkspace, hw, ht, hd, hc, dirtyResolutionOps, runGitOps]

/-- Concrete dirty run that picks `cancel`. -/
def c7Input : UpdateIn :=
  { workspaceExists := true, gitTracked := true, statusClean := false,
    dirtyChoice := .cancel, reinitConfirm := false, localCommit := 3,
    remoteCommit := 9, confirmUpdate := true, packageJsonExists := true,
    updateDependencies := true }

/-- C7 witness: the cancel theorem at a concrete dirty run and state. -/
theorem updateWorkspace_cancel_no_mutation_witness :
    (updateWorkspace c7Input).1 = .cancelledDirty
    ∧ (updateWorkspace c7Input).2 = []
    ∧ runGitOps c7Input.remoteCommit ⟨3, 0, 2, 1⟩ (updateWorkspace c7Input).2
        = ⟨3, 0, 2, 1⟩ :=
  ⟨(updateWorkspace_cancel_no_mutation c7Input rfl rfl rfl rfl).1,
   (updateWorkspace_cancel_no_mutation c7Input rfl rfl rfl rfl).2.1,
   (updateWorkspace_cancel_no_mutation c7Input rfl rfl rfl rfl).2.2 ⟨3, 0, 2, 1⟩⟩

/-- C5: `getDirectorySize` keeps no record of visited directories, so on a
filesystem where a directory's link entry resolves back to a directory
again without end, the recursion never returns: no amount of fuel
produces a result. -/
theorem getDirectorySizeG_cyclic_diverges :
    ∀ fuel p, getDirectorySizeG cyclicFS fuel p = none := by
  intro fuel
  induction fuel with
  | zero => intro p; simp [getDirectorySizeG]
  | succ n ih => intro p; simp [getDirectorySizeG, cyclicFS, childSumG, ih]

/-- Dirty workspace whose HEAD already equals origin/main, resolved by
stashing. -/
def c1Input : UpdateIn :=
  { workspaceExists := true, gitTracked := true, statusClean := false,
    dirtyChoice := .stash, reinitConfirm := false, localCommit := 7,
    remoteCommit := 7, confirmUpdate := true, packageJsonExists := false,
    updateDependencies := false }

/-- C1 counterexample: a dirty tracked workspace whose HEAD equals the
remote ref still mutates — the dirty resolution runs before the
up-to-date check, so this run reports up-to-date after having invoked a
stash, a mutating call. -/
theorem updateWorkspace_upToDate_can_stash :
    (updateWorkspace c1Input).1 = .upToDate
    ∧ (updateWorkspace c1Input).2 = [GitOp.stash, GitOp.fetch]
    ∧ GitOp.stash ∈ (updateWorkspace c1Input).2
    ∧ GitOp.stash.isMutating = true := by
  refine ⟨rfl, rfl, ?_, rfl⟩
  decide

/-- C1 amended: when local HEAD equals the remote ref no pull is ever
invoked, and when additionally the working tree is clean the run reports
up-to-date with no mutating call at all; a dirty tree has its resolution
(stash, or reset plus clean) performed before the up-to-date check. -/
theorem updateWorkspace_upToDate_clean_no_mutation (i : UpdateIn)
    (hw : i.workspaceExists = true) (ht : i.gitTracked = true)
    (heq : i.localCommit = i.remoteCommit) :
    GitOp.pull ∉ (updateWorkspace i).2
    ∧ (i.statusClean = true →
        (updateWorkspace i).1 = .upToDate
        ∧ (updateWorkspace i).2.filter GitOp.isMutating = []) := by
  cases hsc : i.statusClean
  · cases hdc : i.dirtyChoice <;>
      simp [updateWorkspace, hw, ht, heq, hsc, hdc, dirtyResolutionOps,
        GitOp.isMutating]
  · simp [updateWorkspace, hw, ht, heq, hsc, dirtyResolutionOps, GitOp.isMutating]

/-- Clean tracked workspace whose HEAD equals origin/main. -/
def c1CleanInput : UpdateIn :=
  { workspaceExists := true, gitTracked := true, statusClean := true,
    dirtyChoice := .cancel, reinitConfirm := false, localCommit := 4,
    remoteCommit := 4, confirmUpdate := true, packageJsonExists := true,
    updateDependencies := true }

/-- C1 witness: the amended theorem at a concrete clean up-to-date run. -/
theorem updateWorkspace_upToDate_clean_no_mutation_witness :
    GitOp.pull ∉ (updateWorkspace c1CleanInput).2
    ∧ ((updateWorkspace c1CleanInput).1 = .upToDate
        ∧ (updateWorkspace c1CleanInput).2.filter GitOp.isMutating = []) :=
  ⟨(updateWorkspace_upToDate_clean_no_mutation c1CleanInput rfl rfl rfl).1,
   (updateWorkspace_upToDate_clean_no_mutation c1CleanInput rfl rfl rfl).2 rfl⟩

/-- C6: with pending remote commits, declining the apply-update
confirmation ends the run with no pull: HEAD keeps its pre-update value,
and the stash created by a stash resolution of the dirty step is still
present in the final state. -/
theorem updateWorkspace_decline_preserves_head (i : UpdateIn) (s : WSState)
    (hw : i.workspaceExists = true) (ht : i.gitTracked = true)
    (hne : i.localCommit ≠ i.remoteCommit)
    (hres : i.statusClean = false → i.dirtyChoice ≠ .cancel)
    (hconf : i.confirmUpdate = false) :
    (updateWorkspace i).1 = .declined
    ∧ GitOp.pull ∉ (updateWorkspace i).2
    ∧ (runGitOps i.remoteCommit s (updateWorkspace i).2).head = s.head
    ∧ (runGitOps i.remoteCommit s (updateWorkspace i).2).stashCount
        = s.stashCount
          + (if i.statusClean = false ∧ i.dirtyChoice = .stash then 1 else 0) := by
  cases hsc : i.statusClean
  · cases hdc : i.dirtyChoice
    · simp [updateWorkspace, hw, ht, hne, hconf, hsc, hdc, dirtyResolutionOps,
        runGitOps, GitOp.applyTo]
    · simp [updateWorkspace, hw, ht, hne, hconf, hsc, hdc, dirtyResolutionOps,
        runGitOps, GitOp.applyTo]
    · exact absurd hdc (hres hsc)
  · simp [updateWorkspace, hw, ht, hne, hconf, hsc, dirtyResolutionOps,
      runGitOps, GitOp.applyTo]

/-- Dirty workspace with pending remote commits, stashed, then the update
confirmation declined. -/
def c6Input : UpdateIn :=
  { workspaceExists := true, gitTracked := true, statusClean := false,
    dirtyChoice := .stash, reinitConfirm := false, localCommit := 2,
    remoteCommit := 5, confirmUpdate := false, packageJsonExists := true,
    updateDependencies := true }

/-- C6 witness: the decline theorem at a concrete stashed run. -/
theorem updateWorkspace_decline_preserves_head_witness :
    (updateWorkspace c6Input).1 = .declined
    ∧ GitOp.pull ∉ (updateWorkspace c6Input).2
    ∧ (runGitOps c6Input.remoteCommit ⟨2, 0, 1, 0⟩ (updateWorkspace c6Input).2).head = 2
    ∧ (runGitOps c6Input.remoteCommit ⟨2, 0, 1, 0⟩ (updateWorkspace c6Input).2).stashCount
        = 0 + (if c6Input.statusClean = false ∧ c6Input.dirtyChoice = .stash then 1 else 0) :=
  updateWorkspace_decline_preserves_head c6Input ⟨2, 0, 1, 0⟩ rfl rfl
    (by decide) (fun _ => by decide) rfl

/-! ### Lemmas about the guarded directory size -/

/-- The error-free environment never fails a stat. -/
theorem noFsErr_statErr (p : FsPath) : noFsErr.statErr p = false := rfl

/-- The error-free environment never fails a directory read. -/
theorem noFsErr_readErr (p : FsPath) : noFsErr.readErr p = false := rfl

mutual
/-- Error-free contribution of an entry: exactly the bytes it holds. -/
theorem subSize_noErr : ∀ (p : FsPath) (t : FSTree),
    FSTree.subSize noFsErr p t = t.totalBytes
  | _, .file _ => by simp [FSTree.subSize, FSTree.totalBytes]
  | p, .dir cs => by
    have h := childSum_noErr p cs
    simp [FSTree.subSize, noFsErr_readErr, h, FSTree.totalBytes]
/-- Error-free child sum: always defined, with the byte sum of the list. -/
theorem childSum_noErr : ∀ (p : FsPath) (cs : FSList),
    FSList.childSum noFsErr p cs = some cs.totalBytes
  | _, .nil => by simp [FSList.childSum, FSList.totalBytes]
  | p, .cons n t rest => by
    have hrest := childSum_noErr p rest
    have ht := subSize_noErr (p ++ [n]) t
    simp [FSList.childSum, noFsErr_statErr, hrest, ht, FSList.totalBytes]
end

mutual
/-- The contribution of an entry never exceeds the bytes it really holds,
whatever calls fail. -/
theorem subSize_le_totalBytes : ∀ (e : FsErr) (p : FsPath) (t : FSTree),
    FSTree.subSize e p t ≤ t.totalBytes
  | _, _, .file _ => by simp [FSTree.subSize, FSTree.totalBytes]
  | e, p, .dir cs => by
    by_cases h : e.readErr p
    · simp [FSTree.subSize, h]
    · cases hcs : FSList.childSum e p cs with
      | none => simp [FSTree.subSize, h, hcs]
      | some s =>
        have := childSum_le_totalBytes e p cs s hcs
        simpa [FSTree.subSize, h, hcs, FSTree.totalBytes] using this
/-- A defined child sum never exceeds the bytes below the list. -/
theorem childSum_le_totalBytes : ∀ (e : FsErr) (p : FsPath) (cs : FSList) (s : Nat),
    FSList.childSum e p cs = some s → s ≤ cs.totalBytes
  | e, p, .nil, s => by
    intro h
    simp [FSList.childSum] at h
    omega
  | e, p, .cons n t rest, s => by
    intro h
    by_cases hs : e.statErr (p ++ [n])
    · simp [FSList.childSum, hs] at h
    · cases hrest : FSList.childSum e p rest with
      | none => simp [FSList.childSum, hs, hrest] at h
      | some s2 =>
        have h2 := childSum_le_totalBytes e p rest s2 hrest
        have h1 := subSize_le_totalBytes e (p ++ [n]) t
        simp [FSList.childSum, hs, hrest] at h
        simp [FSList.totalBytes]
        omega
end

/-- C9: a missing path has size 0 and fails the existence check; a failing
`readdirSync` at the path is swallowed into 0; whatever filesystem calls
fail, the computed size is a defined number bounded by the bytes the
subtree really holds (no exception ever escapes to the caller); and with
no failures a directory's size is exactly its byte sum. -/
theorem getDirectorySize_missing_and_errors (e : FsErr) (fs : FSTree) (p : FsPath) :
    (fs.lookup p = none → getDirectorySize e fs p = 0 ∧ existsPath fs p = false)
    ∧ (e.readErr p = true → getDirectorySize e fs p = 0)
    ∧ getDirectorySize e fs p ≤ (fs.lookup p).elim 0 FSTree.totalBytes
    ∧ (∀ cs, fs.lookup p = some (.dir cs) →
        getDirectorySize noFsErr fs p = FSList.totalBytes cs) := by
  refine ⟨fun h => ?_, fun h => ?_, ?_, fun cs h => ?_⟩
  · simp [getDirectorySize, existsPath, h]
  · cases hl : fs.lookup p with
    | none => simp [getDirectorySize, hl]
    | some t =>
      cases t with
      | file sz => simp [getDirectorySize, hl]
      | dir cs => simp [getDirectorySize, hl, FSTree.subSize, h]
  · cases hl : fs.lookup p with
    | none => simp [getDirectorySize, hl]
    | some t =>
      cases t with
      | file sz => simp [getDirectorySize, hl]
      | dir cs =>
        have hb := subSize_le_totalBytes e p (.dir cs)
        simpa [getDirectorySize, hl] using hb
  · have hn := subSize_noErr p (.dir cs)
    simp [getDirectorySize, h, FSTree.totalBytes] at hn ⊢
    exact hn

/-! ### Lemmas about the recursive listing -/

/-- Prefixing a component does not change the basename test on a nonempty
relative path. -/
theorem entryIsJsNamed_cons (n b : String) (bs : List String) :
    entryIsJsNamed (n :: b :: bs) = entryIsJsNamed (b :: bs) := by
  simp [entryIsJsNamed, List.getLastD_cons]

mutual
/-- Every listed relative path of an entry is nonempty. -/
theorem readdirRec_ne_nil_tree : ∀ (t : FSTree), ∀ x ∈ t.readdirRec, x ≠ []
  | .file _ => by simp [FSTree.readdirRec]
  | .dir cs => by simpa [FSTree.readdirRec] using readdirRec_ne_nil_list cs
/-- Every listed relative path below a child list is nonempty. -/
theorem readdirRec_ne_nil_list : ∀ (cs : FSList), ∀ x ∈ cs.readdirRec, x ≠ []
  | .nil => by simp [FSList.readdirRec]
  | .cons n t rest => by
    intro x hx
    simp only [FSList.readdirRec, List.mem_cons, List.mem_append,
      List.mem_map] at hx
    rcases hx with (h | ⟨e, _, rfl⟩) | h
    · subst h; simp
    · simp
    · exact readdirRec_ne_nil_list rest x h
end

/-- Prefixing every nonempty path of a list with one more component keeps
the any-`.js`-basename test unchanged. -/
theorem any_map_cons_js (n : String) :
    ∀ (l : List FsPath), (∀ x ∈ l, x ≠ []) →
      (l.map (fun e => n :: e)).any entryIsJsNamed = l.any entryIsJsNamed
  | [], _ => rfl
  | e :: es, h => by
    have he := h e (List.mem_cons_self e es)
    cases e with
    | nil => exact absurd rfl he
    | cons b bs =>
      have ih := any_map_cons_js n es (fun x hx => h x (List.mem_cons_of_mem _ hx))
      simp only [List.map_cons, List.any_cons, ih, entryIsJsNamed_cons]

mutual
/-- The flat recursive listing of an entry holds a `.js`-named path
exactly when the tree holds a `.js`-named entry. -/
theorem readdirRec_any_js_tree : ∀ (t : FSTree),
    t.readdirRec.any entryIsJsNamed = t.hasJsEntry
  | .file _ => by simp [FSTree.readdirRec, FSTree.hasJsEntry]
  | .dir cs => by
    simpa [FSTree.readdirRec, FSTree.hasJsEntry] using readdirRec_any_js_list cs
/-- Child-list case of `readdirRec_any_js_tree`. -/
theorem readdirRec_any_js_list : ∀ (cs : FSList),
    cs.readdirRec.any entryIsJsNamed = cs.hasJsEntry
  | .nil => by simp [FSList.readdirRec, FSList.hasJsEntry]
  | .cons n t rest => by
    have ht := readdirRec_any_js_tree t
    have hrest := readdirRec_any_js_list rest
    have hmap := any_map_cons_js n t.readdirRec (readdirRec_ne_nil_tree t)
    simp [FSList.readdirRec, FSList.hasJsEntry, List.any_cons, List.any_append,
      hmap, ht, hrest, entryIsJsNamed, Bool.or_assoc]
end

/-- Scripts directory whose only entry is a subdirectory named `lib.js`
(an entry `readdirSync` lists, though no file anywhere ends in `.js`). -/
def c8Scripts : FSTree := .dir (.cons "lib.js" (.dir .nil) .nil)

/-- Project holding `c8Scripts` at `behavior_pack/scripts`. -/
def c8Project : FSTree :=
  .dir (.cons "behavior_pack" (.dir (.cons "scripts" c8Scripts .nil)) .nil)

/-- C8 counterexample: the scripts directory exists and holds no
compiled-script file anywhere in its recursive tree — its single entry is
a directory named `lib.js` — yet the reporter flags the project built,
because `readdirSync(.., recursive)` lists directories too and the filter
tests only the name. -/
theorem isBuilt_true_without_js_file :
    isBuilt c8Project = some true
    ∧ c8Project.lookup ["behavior_pack", "scripts"] = some c8Scripts
    ∧ c8Scripts.hasJsFile = false := by
  refine ⟨?_, ?_, ?_⟩ <;> decide

/-- C8 amended: the built flag is reported exactly when the behavior-pack
scripts directory exists and its recursive listing holds at least one
entry — file or directory — whose name ends in `.js`; in particular a
missing scripts path, or an existing but empty scripts directory, reports
not built. -/
theorem isBuilt_iff_hasJsEntry (proj : FSTree) :
    (∀ cs, proj.lookup ["behavior_pack", "scripts"] = some (.dir cs) →
        isBuilt proj = some cs.hasJsEntry)
    ∧ (proj.lookup ["behavior_pack", "scripts"] = none → isBuilt proj = some false)
    ∧ (proj.lookup ["behavior_pack", "scripts"] = some (.dir .nil) →
        isBuilt proj = some false) := by
  refine ⟨fun cs h => ?_, fun h => ?_, fun h => ?_⟩
  · simp [isBuilt, h, readdirRec_any_js_list]
  · simp [isBuilt, h]
  · simp [isBuilt, h, FSList.readdirRec]

/-! ### Lemmas about the cleaner -/

/-- A subpath clean that returns normally reclaimed exactly the guarded
measured size of its path (0 for a missing path). -/
theorem cleanSubpath_ok (env : CleanEnv) (p : FsPath) (a : List FsPath) (s : Nat)
    (h : cleanSubpath env p = (a, .ok s)) :
    s = getDirectorySize env.err env.fs p := by
  by_cases he : existsPath env.fs p
  · by_cases hr : env.removeFails p
    · simp [cleanSubpath, he, hr] at h
    · simp [cleanSubpath, he, hr] at h
      exact h.2.symm
  · simp [cleanSubpath, he] at h
    cases hl : env.fs.lookup p with
    | none => simp [getDirectorySize, hl, h.2]
    | some t => simp [existsPath, hl] at he

/-- A Build outputs loop that returns normally reclaimed exactly the sum
of the measured scripts and dist sizes of the listed projects. -/
theorem buildCleanLoop_ok (env : CleanEnv) :
    ∀ (names : List String) (a : List FsPath) (s : Nat),
      buildCleanLoop env names = (a, .ok s) →
      s = (names.map (fun n =>
        getDirectorySize env.err env.fs (scriptsPath n)
        + getDirectorySize env.err env.fs (distPath n))).sum
  | [], a, s => by
    intro h
    simp [buildCleanLoop] at h
    simp [h.2.symm]
  | n :: rest, a, s => by
    intro h
    simp only [buildCleanLoop] at h
    cases h1 : cleanSubpath env (scriptsPath n) with
    | mk a1 r1 =>
      rw [h1] at h
      cases r1 with
      | error e => simp at h
      | ok s1 =>
        cases h2 : cleanSubpath env (distPath n) with
        | mk a2 r2 =>
          rw [h2] at h
          cases r2 with
          | error e => simp at h
          | ok s2 =>
            cases h3 : buildCleanLoop env rest with
            | mk a3 r3 =>
              rw [h3] at h
              cases r3 with
              | error e => simp at h
              | ok s3 =>
                simp at h
                have e1 := cleanSubpath_ok env (scriptsPath n) a1 s1 h1
                have e2 := cleanSubpath_ok env (distPath n) a2 s2 h2
                have e3 := buildCleanLoop_ok env rest a3 s3 h3
                simp only [List.map_cons, List.sum_cons]
                omega

/-- A Build outputs clean that returns normally reclaimed exactly the
catalog's pre-computed Build outputs size. -/
theorem cleanPatternBuild_ok (env : CleanEnv) (a : List FsPath) (s : Nat)
    (h : cleanPatternBuild env = (a, .ok s)) : s = getBuildOutputSize env := by
  unfold cleanPatternBuild at h
  unfold getBuildOutputSize
  cases hl : env.fs.lookup ["projects"] with
  | none =>
    rw [hl] at h
    simp at h
    simp [h.2.symm]
  | some t =>
    rw [hl] at h
    cases t with
    | file sz => simp at h
    | dir cs =>
      by_cases hr : env.err.readErr ["projects"]
      · simp [hr] at h
      · simp only [hr, if_false] at h ⊢
        cases hf : dirEntriesFilter env.err.statErr ["projects"] cs.toList with
        | none => rw [hf] at h; simp at h
        | some names =>
          rw [hf] at h
          simp [buildCleanLoop_ok env names a s h]

/-- One selected name never credits more than its pre-computed catalog
size (the failing branches credit 0, the direct branch credits exactly
the catalog size, the Build outputs branch credits exactly its catalog
sum). -/
theorem cleanStep_le (env : CleanEnv) (name : String) :
    (cleanStep env (existingItems env) name).1 ≤ catalogSizeOf env name := by
  unfold cleanStep catalogSizeOf
  cases hf : (existingItems env).find? (fun it => it.name == name) with
  | none => simp
  | some it =>
    have hmem : it ∈ existingItems env := List.mem_of_find?_eq_some hf
    have hcl : it ∈ cleanableItems env := List.mem_of_mem_filter hmem
    by_cases hp : it.isPattern
    · simp only [hp, if_true]
      simp only [cleanableItems, List.mem_cons, List.not_mem_nil, or_false] at hcl
      rcases hcl with h | h | h | h | h
      · subst h; simp at hp
      · subst h; simp at hp
      · subst h
        simp only [cleanPatternItem, if_pos rfl]
        cases hb : cleanPatternBuild env with
        | mk a r =>
          cases r with
          | ok s => simp [cleanPatternBuild_ok env a s hb]
          | error e => simp
      · subst h
        have hd : cleanPatternItem env "Temporary files" = ([], .ok 0) := by
          simp [cleanPatternItem]
        simp [hd]
      · subst h; simp at hp
    · simp only [hp, if_false, Bool.false_eq_true]
      split
      · simp
      · simp

/-- The cleaning loop credits at most the sum of the selected names'
pre-computed catalog sizes. -/
theorem cleanLoop_le (env : CleanEnv) :
    ∀ sel : List String,
      (cleanLoop env (existingItems env) sel).1 ≤ selectedCatalogTotal env sel
  | [] => by simp [cleanLoop, selectedCatalogTotal]
  | name :: rest => by
    have h1 := cleanStep_le env name
    have h2 := cleanLoop_le env rest
    simp only [cleanLoop, selectedCatalogTotal, List.map_cons, List.sum_cons] at *
    exact Nat.add_le_add h1 h2

/-- C3: a clean run never reports more bytes reclaimed than the sum of
the pre-computed catalog sizes of the selected categories, and an empty
selection reports zero bytes and performs zero removal attempts. -/
theorem cleanWorkspace_reclaim_bounded (env : CleanEnv) (sel : List String)
    (confirm : Bool) (hsel : sel.Nodup) :
    (cleanWorkspace env sel confirm).bytes ≤ selectedCatalogTotal env sel
    ∧ (sel = [] →
        (cleanWorkspace env sel confirm).bytes = 0
        ∧ (cleanWorkspace env sel confirm).attempts = []) := by
  constructor
  · unfold cleanWorkspace
    split
    · simp
    · split
      · simp
      · split
        · simp
        · split
          · simp
          · exact cleanLoop_le env sel
  · intro h
    subst h
    simp [cleanWorkspace]

/-- Concrete clean environment: a workspace holding one dependency inside
`node_modules`, nothing failing. -/
def c3Env : CleanEnv :=
  { workspaceExists := true,
    fs := .dir (.cons "node_modules" (.dir (.cons "pkg" (.file 64) .nil)) .nil),
    err := noFsErr, removeFails := fun _ => false, dirStatSize := 0 }

/-- C3 witness: the bound at a concrete run selecting only the dependency
cache. -/
theorem cleanWorkspace_reclaim_bounded_witness :
    (cleanWorkspace c3Env ["Node modules"] true).bytes
      ≤ selectedCatalogTotal c3Env ["Node modules"]
    ∧ ((["Node modules"] : List String) = [] →
        (cleanWorkspace c3Env ["Node modules"] true).bytes = 0
        ∧ (cleanWorkspace c3Env ["Node modules"] true).attempts = []) :=
  cleanWorkspace_reclaim_bounded c3Env ["Node modules"] true (by simp)

/-- The removal attempts of one loop step are exactly the attempts its own
item produces, whatever succeeds or fails. -/
theorem cleanStep_attempts (env : CleanEnv) (existing : List CleanItem)
    (name : String) :
    (cleanStep env existing name).2.2 = itemAttempts env existing name := by
  unfold cleanStep itemAttempts
  cases hf : existing.find? (fun it => it.name == name) with
  | none => rfl
  | some it =>
    by_cases hp : it.isPattern
    · simp only [hp, if_true]
      cases hc : cleanPatternItem env it.name with
      | mk a r => cases r <;> simp
    · simp only [hp, if_false, Bool.false_eq_true]
      split <;> rfl

/-- The attempts of the whole cleaning loop are the concatenation, in
selection order, of each selected name's own attempts: a failure inside
one category never changes what is attempted for another. -/
theorem cleanLoop_attempts (env : CleanEnv) (existing : List CleanItem) :
    ∀ sel : List String,
      (cleanLoop env existing sel).2.2
        = sel.flatMap (itemAttempts env existing)
  | [] => by simp [cleanLoop]
  | name :: rest => by
    simp only [cleanLoop, List.flatMap_cons]
    rw [cleanStep_attempts, cleanLoop_attempts env existing rest]

/-- Inside the Build outputs category the loop attempts exactly the
removal plan truncated at the first failing removal. -/
theorem buildCleanLoop_attempts (env : CleanEnv) :
    ∀ names : List String,
      (buildCleanLoop env names).1
        = runPlan env.removeFails (removalPlan env names)
  | [] => by simp [buildCleanLoop, removalPlan, runPlan]
  | n :: rest => by
    have ih := buildCleanLoop_attempts env rest
    simp only [buildCleanLoop, removalPlan, List.flatMap_cons]
    by_cases hs : existsPath env.fs (scriptsPath n)
    · by_cases hfs : env.removeFails (scriptsPath n)
      · simp [cleanSubpath, hs, hfs, runPlan]
      · by_cases hd : existsPath env.fs (distPath n)
        · by_cases hfd : env.removeFails (distPath n)
          · simp [cleanSubpath, hs, hfs, hd, hfd, runPlan]
          · cases h3 : buildCleanLoop env rest with
            | mk a3 r3 =>
              have ih2 : a3 = runPlan env.removeFails (removalPlan env rest) := by
                rw [h3] at ih; exact ih
              cases r3 <;>
                simp [cleanSubpath, hs, hfs, hd, hfd, runPlan, h3, ih2, removalPlan]
        · cases h3 : buildCleanLoop env rest with
          | mk a3 r3 =>
            have ih2 : a3 = runPlan env.removeFails (removalPlan env rest) := by
              rw [h3] at ih; exact ih
            cases r3 <;>
              simp [cleanSubpath, hs, hfs, hd, runPlan, h3, ih2, removalPlan]
    · by_cases hd : existsPath env.fs (distPath n)
      · by_cases hfd : env.removeFails (distPath n)
        · simp [cleanSubpath, hs, hd, hfd, runPlan]
        · cases h3 : buildCleanLoop env rest with
          | mk a3 r3 =>
            have ih2 : a3 = runPlan env.removeFails (removalPlan env rest) := by
              rw [h3] at ih; exact ih
            cases r3 <;>
              simp [cleanSubpath, hs, hd, hfd, runPlan, h3, ih2, removalPlan]
      · cases h3 : buildCleanLoop env rest with
        | mk a3 r3 =>
          have ih2 : a3 = runPlan env.removeFails (removalPlan env rest) := by
            rw [h3] at ih; exact ih
          cases r3 <;>
            simp [cleanSubpath, hs, hd, runPlan, h3, ih2, removalPlan]

/-- Workspace with two projects, each holding a compiled scripts
directory. -/
def c2Fs : FSTree :=
  .dir (.cons "projects"
    (.dir (.cons "p1"
      (.dir (.cons "behavior_pack"
        (.dir (.cons "scripts" (.dir (.cons "main.js" (.file 10) .nil)) .nil))
        .nil))
      (.cons "p2"
        (.dir (.cons "behavior_pack"
          (.dir (.cons "scripts" (.dir (.cons "main.js" (.file 20) .nil)) .nil))
          .nil))
        .nil)))
    .nil)

/-- The same workspace where removing the first project's scripts
directory fails. -/
def c2Env : CleanEnv :=
  { workspaceExists := true, fs := c2Fs, err := noFsErr,
    removeFails := fun p => p == ["projects", "p1", "behavior_pack", "scripts"],
    dirStatSize := 0 }

/-- C2 counterexample: when removing the first project's scripts
directory fails, the Build outputs clean stops there — the second
project's existing scripts directory is never attempted, though the claim
requires it to be. -/
theorem cleanPatternBuild_abandons_remaining :
    (cleanPatternBuild c2Env).1 = [["projects", "p1", "behavior_pack", "scripts"]]
    ∧ (cleanPatternBuild c2Env).2 = .error ()
    ∧ existsPath c2Env.fs (scriptsPath "p2") = true
    ∧ scriptsPath "p2" ∉ (cleanPatternBuild c2Env).1 :=
  ⟨by decide, rfl, by decide, by decide⟩

/-- C2 amended: the cleaning loop attempts every selected category
independently — its attempts are the concatenation of each selected
name's own attempts, so one category's failure never suppresses another —
but within the Build outputs category the per-project loop attempts
exactly the removal plan truncated at the first failing removal: the
remaining projects of that category are abandoned in that run. -/
theorem clean_removal_isolation (env : CleanEnv) (sel : List String) :
    (cleanLoop env (existingItems env) sel).2.2
      = sel.flatMap (itemAttempts env (existingItems env))
    ∧ ∀ names, (buildCleanLoop env names).1
        = runPlan env.removeFails (removalPlan env names) :=
  ⟨cleanLoop_attempts env (existingItems env) sel, buildCleanLoop_attempts env⟩

/-- No surviving catalog entry is named Temporary files: its computed
size is the constant 0, so the existence filter always drops it, and
every other entry bears a different name. -/
theorem temp_not_in_existingItems (env : CleanEnv) :
    ∀ it ∈ existingItems env, it.name ≠ "Temporary files" := by
  intro it hmem hname
  unfold existingItems at hmem
  have hcond := List.of_mem_filter hmem
  have hcl := List.mem_of_mem_filter hmem
  simp only [cleanableItems, List.mem_cons, List.not_mem_nil, or_false] at hcl
  rcases hcl with h | h | h | h | h <;> subst h <;>
    simp [getTempFilesSize] at hcond hname ⊢

/-- C10: the Temporary files category is inert — its computed size is the
constant 0, it never survives into the presented catalog (so no selection
can reach it), and its removal branch performs no removal attempt and
returns 0 bytes. -/
theorem tempFiles_inert (env : CleanEnv) :
    getTempFilesSize env = 0
    ∧ "Temporary files" ∉ (existingItems env).map (fun it => it.name)
    ∧ (existingItems env).find? (fun it => it.name == "Temporary files") = none
    ∧ cleanPatternItem env "Temporary files" = ([], .ok 0) := by
  refine ⟨rfl, ?_, ?_, ?_⟩
  · intro h
    rcases List.mem_map.mp h with ⟨it, hmem, hname⟩
    exact temp_not_in_existingItems env it hmem hname
  · rw [List.find?_eq_none]
    intro it hmem
    simp only [beq_iff_eq]
    exact temp_not_in_existingItems env it hmem
  · simp [cleanPatternItem]
